import Mathlib

/-!
Verification of the realtime audio session engine in `src/App.tsx` of the
SUPRA voice-assistant client, together with the PCM frame codec described in
the design document (whose source file `utils/audioUtils.ts` is not among the
provided sources and is therefore modelled from the spec).

The embedding is shallow: the mutable refs of the React component become
fields of explicit state records, and each event handler becomes a total
function on those records.  Clock readings (`AudioContext.currentTime`) and
wall-clock timestamps (`Date.now()`) are passed in as parameters, since they
are environment inputs of the handlers.
-/

namespace Supra

/-- Session lifecycle states, from `AppStatus` in `src/types` (unnamed part). -/
inductive AppStatus
  | IDLE
  | CONNECTING
  | ACTIVE
  | ERROR
deriving DecidableEq, Repr

/-- Speaker roles of transcript entries, from `TranscriptionEntry.role`. -/
inductive Role
  | user
  | model
deriving DecidableEq, Repr

/-- One finalized transcript entry: `{role, text, timestamp}` in `src/types`. -/
structure TranscriptionEntry where
  role : Role
  text : String
  timestamp : Nat
deriving DecidableEq, Repr

/-- A scheduled playback unit: its start time on the output clock and its
duration, both in seconds (modelled as rationals).  Corresponds to one
`AudioBufferSourceNode` scheduled in the `onmessage` audio loop
(`src/App.tsx` lines 132-141). -/
structure PlaybackUnit where
  startTime : ℚ
  duration : ℚ
deriving DecidableEq

/-- Playback-scheduler state: `nextStartTimeRef` and `sourcesRef` of
`src/App.tsx`.  `active` holds the ids of source nodes currently in
`sourcesRef`; `stopped` is a ghost set recording every node on which
`stop()` has been called (the `try { s.stop() } catch(e) {}` pattern makes
each such call a total operation); `scheduled` is a ghost log of every unit
ever scheduled, in schedule order. -/
structure SchedState where
  nextStartTime : ℚ
  active : Finset Nat
  stopped : Finset Nat
  scheduled : List PlaybackUnit
deriving DecidableEq

/-- Scheduling one decoded audio buffer, from `src/App.tsx` lines 138-141:
`scheduleTime = max(nextStartTimeRef.current, ctx.currentTime)`;
`sourceNode.start(scheduleTime)`;
`nextStartTimeRef.current = scheduleTime + audioBuffer.duration`;
`sourcesRef.current.add(sourceNode)`. -/
def enqueue (clock dur : ℚ) (nodeId : Nat) (st : SchedState) : SchedState :=
  { st with
    scheduled := st.scheduled ++ [{ startTime := max st.nextStartTime clock, duration := dur }],
    nextStartTime := max st.nextStartTime clock + dur,
    active := insert nodeId st.active }

/-- The completion callback of a source node, from `src/App.tsx` line 136:
`sourceNode.onended = () => { sourcesRef.current.delete(sourceNode); }`.
Deleting an absent element is a no-op, as for a JS `Set`. -/
def onEnded (nodeId : Nat) (st : SchedState) : SchedState :=
  { st with active := st.active.erase nodeId }

/-- The interruption branch of `onmessage`, `src/App.tsx` lines 167-171:
stop every source (the `try`/`catch` absorbs errors from nodes that already
finished), clear the set, and reset `nextStartTimeRef` to
`outputAudioContextRef.current?.currentTime || 0`; `clock` is that value
(when the clock reads `0`, `0 || 0` is still `0`, so passing the reading
is faithful). -/
def interrupt (clock : ℚ) (st : SchedState) : SchedState :=
  { st with stopped := st.stopped ∪ st.active, active := ∅, nextStartTime := clock }

/-- The scheduler state at component mount: `nextStartTimeRef.current = 0`,
empty source set. -/
def initSched : SchedState :=
  { nextStartTime := 0, active := ∅, stopped := ∅, scheduled := [] }

/-- One enqueue request: the output-clock reading at scheduling time, the
decoded buffer duration, and the fresh node id. -/
structure EnqEvent where
  clock : ℚ
  dur : ℚ
  nodeId : Nat
deriving DecidableEq

/-- Run a sequence of enqueue operations against the scheduler. -/
def runEnqueues (evs : List EnqEvent) (st : SchedState) : SchedState :=
  evs.foldl (fun s e => enqueue e.clock e.dur e.nodeId s) st

/-- The full engine state: the React state hooks and refs of `App`
(`src/App.tsx` lines 11-28) that the session engine mutates, plus
`micAcquired`, which tracks whether the microphone `MediaStream` obtained by
`getUserMedia` (`src/App.tsx` line 79) still has live tracks.  The source
keeps that stream only in a local of `startSession` and never calls
`track.stop()` on it, so no handler in this file ever sets the field back
to `false`. -/
structure AppState where
  status : AppStatus
  transcriptions : List TranscriptionEntry
  liveUserText : String
  liveModelText : String
  errorMessage : Option String
  userVolume : ℚ
  modelVolume : ℚ
  sessionOpen : Bool
  scriptConnected : Bool
  micAcquired : Bool
  sched : SchedState
  freshId : Nat
deriving DecidableEq

/-- The engine state at mount: `IDLE`, empty log and accumulators, no
session, zeroed scheduler. -/
def initState : AppState :=
  { status := .IDLE
    transcriptions := []
    liveUserText := ""
    liveModelText := ""
    errorMessage := none
    userVolume := 0
    modelVolume := 0
    sessionOpen := false
    scriptConnected := false
    micAcquired := false
    sched := initSched
    freshId := 0 }

/-- An inbound `LiveServerMessage` as far as the handler inspects it:
inline audio parts (each with the clock reading taken when it is scheduled
and its decoded duration), the two optional transcription fragments, and
the `turnComplete` / `interrupted` flags. -/
structure ServerMessage where
  audioParts : List (ℚ × ℚ)
  outputTranscription : Option String
  inputTranscription : Option String
  turnComplete : Bool
  interrupted : Bool
deriving DecidableEq

/-- The audio loop of `onmessage` (`src/App.tsx` lines 122-144): each part
with inline data is decoded and scheduled; node ids are drawn from the
fresh-id counter. -/
def scheduleParts (parts : List (ℚ × ℚ)) (st : AppState) : AppState :=
  parts.foldl
    (fun s p =>
      { s with sched := enqueue p.1 p.2 s.freshId s.sched, freshId := s.freshId + 1 })
    st

/-- The transcription branch of `onmessage` (`src/App.tsx` lines 146-150):
`if (outputTranscription) { model += ... } else if (inputTranscription)
{ user += ... }` — note the `else`, which drops the input fragment whenever
an output fragment is present in the same message. -/
def appendTranscripts (outT inT : Option String) (st : AppState) : AppState :=
  match outT with
  | some t => { st with liveModelText := st.liveModelText ++ t }
  | none =>
    match inT with
    | some t => { st with liveUserText := st.liveUserText ++ t }
    | none => st

/-- JS `array.slice(-n)`: the suffix of the most recent `n` elements. -/
def takeLast (n : Nat) (l : List α) : List α := l.drop (l.length - n)

/-- Whitespace as JS `String.prototype.trim` strips it. -/
def isWsp (c : Char) : Bool := c = ' ' ∨ c = '\t' ∨ c = '\n' ∨ c = '\r'

/-- JS `s.trim()`: drop leading and trailing whitespace. -/
def trimString (s : String) : String :=
  String.mk (((s.data.dropWhile isWsp).reverse.dropWhile isWsp).reverse)

/-- The entry the turn-completion branch pushes for the user role: one entry
with the accumulated text and the wall-clock timestamp, provided the text is
not whitespace-only (`if (current.trim())`, `src/App.tsx` line 156). -/
def userNew (now : Nat) (st : AppState) : List TranscriptionEntry :=
  if trimString st.liveUserText ≠ "" then [{ role := .user, text := st.liveUserText, timestamp := now }]
  else []

/-- The entry the turn-completion branch pushes for the model role
(`src/App.tsx` line 160). -/
def modelNew (now : Nat) (st : AppState) : List TranscriptionEntry :=
  if trimString st.liveModelText ≠ "" then [{ role := .model, text := st.liveModelText, timestamp := now }]
  else []

/-- The turn-completion branch of `onmessage` (`src/App.tsx` lines 152-165):
push the user entry, then the model entry (each only when its accumulator is
not whitespace-only), append to the log, keep the last 15 entries
(`.slice(-15)`), and clear both accumulators. -/
def finalizeTurn (now : Nat) (st : AppState) : AppState :=
  { st with
    transcriptions := takeLast 15 (st.transcriptions ++ userNew now st ++ modelNew now st)
    liveUserText := ""
    liveModelText := "" }

/-- The whole `onmessage` handler (`src/App.tsx` lines 115-172), in source
order: audio loop, transcription branch, turn-completion branch, interruption
branch.  `now` is `Date.now()` at turn completion and `intClock` the output
clock reading at interruption. -/
def handleMessage (msg : ServerMessage) (now : Nat) (intClock : ℚ) (st : AppState) : AppState :=
  let s1 := scheduleParts msg.audioParts st
  let s2 := appendTranscripts msg.outputTranscription msg.inputTranscription s1
  let s3 := if msg.turnComplete then finalizeTurn now s2 else s2
  if msg.interrupted then { s3 with sched := interrupt intClock s3.sched } else s3

/-- `stopSession` (`src/App.tsx` lines 35-53): close the session handle if
present, disconnect the script processor if present, stop every source
(`try`/`catch` makes stopping an already-finished node a no-op) and clear the
set, then reset status, volumes, live texts and `nextStartTimeRef`.  The
`if (sessionRef.current)` / `if (scriptProcessorRef.current)` guards make a
second call a no-op on the already-released resources.  Note what is absent:
the `getUserMedia` stream of line 79 is held only in a local of
`startSession`, and no line of `stopSession` (or of any other handler)
stops its tracks, so `micAcquired` is left untouched. -/
def stopSession (st : AppState) : AppState :=
  { st with
    sessionOpen := false
    scriptConnected := false
    sched := { st.sched with
                 stopped := st.sched.stopped ∪ st.sched.active
                 active := ∅
                 nextStartTime := 0 }
    status := .IDLE
    userVolume := 0
    modelVolume := 0
    liveUserText := ""
    liveModelText := "" }

/-- The `onerror` callback (`src/App.tsx` lines 173-177): record the generic
message, then run the full `stopSession` teardown (which sets the status to
`IDLE`). -/
def handleTransportError (st : AppState) : AppState :=
  stopSession { st with errorMessage := some "SUPRA neural link disrupted." }

/-- The `onclose` callback (`src/App.tsx` line 178): `() => stopSession()`. -/
def handleRemoteClose (st : AppState) : AppState := stopSession st

/-- The `catch` block of `startSession` (`src/App.tsx` lines 204-208), which
fires on microphone-acquisition or connect failure: record the message and
set the status to `ERROR` — no teardown is invoked here. -/
def handleStartFailure (st : AppState) : AppState :=
  { st with
    errorMessage := some "SUPRA requires microphone access to initialize."
    status := .ERROR }

/-- The engine-level events a running component can receive. -/
inductive EngineOp
  | message (msg : ServerMessage) (now : Nat) (intClock : ℚ)
  | ended (nodeId : Nat)
  | stop
  | transportError
  | remoteClose
  | startFailure

/-- Dispatch of one engine event to its handler. -/
def stepOp : EngineOp → AppState → AppState
  | .message m n c, st => handleMessage m n c st
  | .ended i, st => { st with sched := onEnded i st.sched }
  | .stop, st => stopSession st
  | .transportError, st => handleTransportError st
  | .remoteClose, st => handleRemoteClose st
  | .startFailure, st => handleStartFailure st

/-- Run a sequence of engine events. -/
def runOps (ops : List EngineOp) (st : AppState) : AppState :=
  ops.foldl (fun s o => stepOp o s) st

/-- Session-lifecycle view of the whole component, for the single-session
invariant: the status hook, the number of currently open remote sessions,
and whether a connect request is in flight.  The start control in the UI
(`src/App.tsx` lines 344-356) renders a stop button while `ACTIVE` and a
start button, disabled while `CONNECTING`, otherwise. -/
structure Sys where
  status : AppStatus
  liveSessions : Nat
  pending : Bool
deriving DecidableEq, Repr

/-- The lifecycle events: the single main button being clicked, the connect
attempt succeeding (`onopen`) or failing (the `catch` block), and the remote
peer closing or erroring the session. -/
inductive SysEvent
  | clickMain
  | openOk
  | openFail
  | remoteClose
  | remoteError
deriving DecidableEq, Repr

/-- `stopSession` at the lifecycle level: the open handle (if any) is
closed and the status returns to `IDLE`. -/
def sysStop (s : Sys) : Sys :=
  { s with status := .IDLE, liveSessions := 0, pending := false }

/-- `startSession` up to its first suspend point (`src/App.tsx` lines
55-58): the status becomes `CONNECTING` and a connect is now in flight; no
remote session exists yet. -/
def sysStart (s : Sys) : Sys :=
  { s with status := .CONNECTING, pending := true }

/-- One lifecycle step.  `clickMain` follows the button markup: while
`ACTIVE` the button's handler is `stopSession`; while `CONNECTING` the
start button is disabled, so the click does nothing; otherwise the handler
is `startSession`.  `openOk`/`openFail` resolve an in-flight connect. -/
def stepSys : SysEvent → Sys → Sys
  | .clickMain, s =>
    if s.status = .ACTIVE then sysStop s
    else if s.status = .CONNECTING then s
    else sysStart s
  | .openOk, s =>
    if s.pending then
      { s with status := .ACTIVE, liveSessions := s.liveSessions + 1, pending := false }
    else s
  | .openFail, s =>
    if s.pending then { s with status := .ERROR, pending := false } else s
  | .remoteClose, s => sysStop s
  | .remoteError, s => sysStop s

/-- Run a sequence of lifecycle events. -/
def runSys (evs : List SysEvent) (s : Sys) : Sys :=
  evs.foldl (fun a e => stepSys e a) s

/-- The lifecycle state at mount: idle, no session, nothing in flight. -/
def initSys : Sys := { status := .IDLE, liveSessions := 0, pending := false }

namespace Codec

/-- Modelled from the spec: the error raised by the PCM frame codec on
malformed or truncated input (odd byte length, empty payload); the source
file `utils/audioUtils.ts` that implements the codec is not among the
provided sources. -/
inductive CodecError
  | malformed
deriving DecidableEq, Repr

/-- Modelled from the spec: encoding scales a floating-point sample (here a
rational) to the signed 16-bit range, clamped; `utils/audioUtils.ts` is not
among the provided sources. -/
def encodeSample (s : ℚ) : ℤ :=
  max (-32768) (min 32767 (round (s * 32768)))

/-- Modelled from the spec: decoding normalizes a signed 16-bit sample back
to the floating-point range. -/
def decodeSample (k : ℤ) : ℚ := (k : ℚ) / 32768

/-- Modelled from the spec: a 16-bit sample is serialized as two bytes,
little-endian, two's complement. -/
def sampleToBytes (k : ℤ) : List Nat :=
  [(k % 65536).toNat % 256, (k % 65536).toNat / 256]

/-- Modelled from the spec: the encoder maps each sample to its two-byte
little-endian form and concatenates the results into the payload. -/
def encode (samples : List ℚ) : List Nat :=
  (samples.map (fun s => sampleToBytes (encodeSample s))).flatten

/-- Modelled from the spec: reassemble one signed 16-bit sample from two
consecutive little-endian bytes. -/
def bytesToInt (b0 b1 : Nat) : ℤ :=
  if ((b0 % 256 + 256 * (b1 % 256) : Nat) : ℤ) < 32768 then
    ((b0 % 256 + 256 * (b1 % 256) : Nat) : ℤ)
  else ((b0 % 256 + 256 * (b1 % 256) : Nat) : ℤ) - 65536

/-- Modelled from the spec: decode the payload body two bytes at a time. -/
def decodeBody : List Nat → List ℚ
  | b0 :: b1 :: rest => decodeSample (bytesToInt b0 b1) :: decodeBody rest
  | _ => []

/-- Modelled from the spec: the decoder fails with `CodecError` exactly on
an empty payload or a payload of odd byte length, and otherwise decodes the
consecutive 16-bit little-endian samples. -/
def decode (payload : List Nat) : Except CodecError (List ℚ) :=
  if payload.length = 0 ∨ payload.length % 2 = 1 then .error .malformed
  else .ok (decodeBody payload)

end Codec

/-- Invariant carried through enqueue sequences: the schedule log is
overlap-free, and every scheduled unit has nonnegative duration and ends no
later than the watermark `nextStartTime`. -/
@[reducible] def schedInv (st : SchedState) : Prop :=
  List.Chain' (fun u v => u.startTime + u.duration ≤ v.startTime) st.scheduled ∧
  ∀ u ∈ st.scheduled, 0 ≤ u.duration ∧ u.startTime + u.duration ≤ st.nextStartTime

/-- A concrete enqueue sequence used to instantiate `enqueue_schedule_correct`. -/
def c1Evs : List EnqEvent :=
  [{ clock := 0, dur := 1, nodeId := 0 }, { clock := 2, dur := 1, nodeId := 1 }]

/-- A state with pending accumulator text in both roles, used to exercise the
interruption branch. -/
def c3State : AppState := { initState with liveUserText := "hi", liveModelText := "yo" }

/-- A server message carrying only the interruption flag. -/
def interruptMsg : ServerMessage :=
  { audioParts := [], outputTranscription := none, inputTranscription := none,
    turnComplete := false, interrupted := true }

/-- A message carrying both transcription fragments and nothing else. -/
def bothFragsMsg (u m : String) : ServerMessage :=
  { audioParts := [], outputTranscription := some m, inputTranscription := some u,
    turnComplete := false, interrupted := false }

/-- A server message carrying only the turn-completion flag. -/
def turnMsg : ServerMessage :=
  { audioParts := [], outputTranscription := none, inputTranscription := none,
    turnComplete := true, interrupted := false }

/-- The scenario of the spec: two user fragments followed by turn
completion. -/
def helloOps : List EngineOp :=
  [ .message { audioParts := [], outputTranscription := none,
               inputTranscription := some "hel", turnComplete := false,
               interrupted := false } 0 0,
    .message { audioParts := [], outputTranscription := none,
               inputTranscription := some "lo", turnComplete := false,
               interrupted := false } 0 0,
    .message turnMsg 5 0 ]

/-- A state with accumulated text in both roles and a short log, used to
instantiate `finalize_turn_correct`. -/
def c4State : AppState := { initState with liveUserText := "hi ", liveModelText := "yo" }

/-- An active session state with a connected capture callback and one active
playback unit, used to exercise the error paths. -/
def c6State : AppState :=
  { initState with
      status := .ACTIVE
      sessionOpen := true
      scriptConnected := true
      sched := { initSched with active := {0} } }

/-- The state right after a successful `startSession`: active, handle open,
capture callback wired, and the microphone stream of `src/App.tsx` line 79
live.  Used to exercise the teardown path. -/
def c9State : AppState :=
  { initState with
      status := .ACTIVE
      sessionOpen := true
      scriptConnected := true
      micAcquired := true }

/-- Invariant of the lifecycle model: at most one remote session is open, a
connect can be in flight only while `CONNECTING`, and no session is open
unless the status is `ACTIVE`. -/
@[reducible] def sysInv (s : Sys) : Prop :=
  s.liveSessions ≤ 1 ∧
  (s.pending = true → s.status = .CONNECTING) ∧
  (s.status = .IDLE ∨ s.status = .ERROR → s.pending = false ∧ s.liveSessions = 0) ∧
  (s.status = .CONNECTING → s.liveSessions = 0)

end Supra

namespace Supra

theorem schedInv_enqueue {st : SchedState} (c d : ℚ) (i : Nat) (hd : 0 ≤ d)
    (h : schedInv st) : schedInv (enqueue c d i st) := by
  obtain ⟨hchain, hmem⟩ := h
  refine ⟨?_, ?_⟩
  · refine List.Chain'.append hchain (List.chain'_singleton _) ?_
    intro x hx y hy
    have hx' : x ∈ st.scheduled := List.mem_of_mem_getLast? hx
    have hxe := (hmem x hx').2
    have hy' : ({ startTime := max st.nextStartTime c, duration := d } : PlaybackUnit) = y := by
      simpa using hy
    subst hy'
    exact le_trans hxe (le_max_left _ _)
  · intro u hu
    rcases List.mem_append.mp hu with h1 | h2
    · refine ⟨(hmem u h1).1, le_trans (hmem u h1).2 ?_⟩
      show st.nextStartTime ≤ max st.nextStartTime c + d
      have hmx := le_max_left st.nextStartTime c
      linarith
    · have : u = ({ startTime := max st.nextStartTime c, duration := d } : PlaybackUnit) := by
        simpa using h2
      subst this
      exact ⟨hd, le_refl _⟩

theorem schedInv_runEnqueues {st : SchedState} (evs : List EnqEvent)
    (hdur : ∀ e ∈ evs, 0 ≤ e.dur) (h : schedInv st) : schedInv (runEnqueues evs st) := by
  induction evs generalizing st with
  | nil => exact h
  | cons e t ih =>
    exact ih (fun x hx => hdur x (by simp [hx]))
      (schedInv_enqueue _ _ _ (hdur e (by simp)) h)

theorem chain_start_mono : ∀ (l : List PlaybackUnit),
    List.Chain' (fun u v => u.startTime + u.duration ≤ v.startTime) l →
    (∀ u ∈ l, 0 ≤ u.duration) →
    List.Chain' (fun u v : PlaybackUnit => u.startTime ≤ v.startTime) l
  | [], _, _ => List.chain'_nil
  | [a], _, _ => List.chain'_singleton a
  | a :: b :: t, hc, hd => by
    rw [List.chain'_cons] at hc ⊢
    refine ⟨?_, chain_start_mono (b :: t) hc.2 (fun u hu => hd u (by simp [hu]))⟩
    have ha := hd a (by simp)
    linarith [hc.1]

/-- C1: every newly scheduled unit starts at
`max(NextStartTime, currentOutputClockTime)` and advances `NextStartTime`
to its end time; consequently, over any sequence of enqueue operations,
each unit starts no earlier than the previous unit's end (no overlap) and
start times are non-decreasing. -/
theorem enqueue_schedule_correct (evs : List EnqEvent)
    (hdur : ∀ e ∈ evs, 0 ≤ e.dur) :
    (∀ (st : SchedState) (c d : ℚ) (i : Nat),
        (enqueue c d i st).scheduled
            = st.scheduled ++ [{ startTime := max st.nextStartTime c, duration := d }] ∧
        (enqueue c d i st).nextStartTime = max st.nextStartTime c + d) ∧
    List.Chain' (fun u v => u.startTime + u.duration ≤ v.startTime)
      (runEnqueues evs initSched).scheduled ∧
    List.Chain' (fun u v : PlaybackUnit => u.startTime ≤ v.startTime)
      (runEnqueues evs initSched).scheduled := by
  have hinv : schedInv (runEnqueues evs initSched) :=
    schedInv_runEnqueues evs hdur ⟨List.chain'_nil, by intro u hu; simp [initSched] at hu⟩
  exact ⟨fun st c d i => ⟨rfl, rfl⟩, hinv.1,
    chain_start_mono _ hinv.1 (fun u hu => (hinv.2 u hu).1)⟩

theorem enqueue_schedule_correct_witness :
    (∀ e ∈ c1Evs, 0 ≤ e.dur) ∧
    List.Chain' (fun u v => u.startTime + u.duration ≤ v.startTime)
      (runEnqueues c1Evs initSched).scheduled ∧
    List.Chain' (fun u v : PlaybackUnit => u.startTime ≤ v.startTime)
      (runEnqueues c1Evs initSched).scheduled :=
  ⟨by decide, (enqueue_schedule_correct c1Evs (by decide)).2.1,
    (enqueue_schedule_correct c1Evs (by decide)).2.2⟩

theorem onEnded_foldl_of_empty (ids : List Nat) (s : SchedState) (h : s.active = ∅) :
    ids.foldl (fun a i => onEnded i a) s = s := by
  induction ids with
  | nil => rfl
  | cons i t ih =>
    have hstep : onEnded i s = s := by
      cases s with
      | mk nst act stp sch => simp_all [onEnded]
    rw [List.foldl_cons, hstep, ih]

/-- C2: after `interrupt` every previously active unit has received a stop
call, the active-set is empty and `NextStartTime` equals the clock reading
at the moment of interruption; any number of later completion callbacks
(for previously active units) leaves the active-set empty and
`NextStartTime` unchanged. -/
theorem interrupt_flush_stable (st : SchedState) (t : ℚ) (ids : List Nat) :
    (interrupt t st).active = ∅ ∧
    (interrupt t st).nextStartTime = t ∧
    (interrupt t st).stopped = st.stopped ∪ st.active ∧
    (ids.foldl (fun a i => onEnded i a) (interrupt t st)).active = ∅ ∧
    (ids.foldl (fun a i => onEnded i a) (interrupt t st)).nextStartTime = t := by
  have h0 : (interrupt t st).active = ∅ := rfl
  have h1 := onEnded_foldl_of_empty ids _ h0
  exact ⟨rfl, rfl, rfl, by rw [h1]; exact h0, by rw [h1]; exact rfl⟩

end Supra

namespace Supra

/-- C3 counterexample: an interruption event does not clear the two
accumulators — starting from accumulators "hi" / "yo", the handler leaves
them non-empty, refuting the claim that every interruption clears both. -/
theorem interruption_clears_accumulators_cex :
    ¬ ((handleMessage interruptMsg 0 0 c3State).liveUserText = "" ∧
       (handleMessage interruptMsg 0 0 c3State).liveModelText = "") := by
  decide

/-- C3 amended: an interruption event leaves both accumulators and the
finalized log unchanged (no discard happens and no entry is created for
in-flight text); the accumulators are cleared at turn completion
(`finalizeTurn`) and at session teardown (`stopSession`), not at
interruption. -/
theorem interruption_accumulators_amended (st : AppState) (now : Nat) (t : ℚ) :
    (handleMessage interruptMsg now t st).liveUserText = st.liveUserText ∧
    (handleMessage interruptMsg now t st).liveModelText = st.liveModelText ∧
    (handleMessage interruptMsg now t st).transcriptions = st.transcriptions ∧
    (finalizeTurn now st).liveUserText = "" ∧
    (finalizeTurn now st).liveModelText = "" ∧
    (stopSession st).liveUserText = "" ∧
    (stopSession st).liveModelText = "" :=
  ⟨rfl, rfl, rfl, rfl, rfl, rfl, rfl⟩

/-- C10: when a single message carries both an output (model) and an input
(user) transcription fragment, only the model accumulator is extended; the
user fragment of that message is dropped, because the two branches are an
`if`/`else if` pair. -/
theorem both_transcriptions_model_wins (st : AppState) (u m : String) (now : Nat) (t : ℚ) :
    (handleMessage (bothFragsMsg u m) now t st).liveModelText = st.liveModelText ++ m ∧
    (handleMessage (bothFragsMsg u m) now t st).liveUserText = st.liveUserText :=
  ⟨rfl, rfl⟩

/-- C9 counterexample: `stopSession` does not release all resources — run
on the post-`startSession` state, it leaves the microphone acquired,
because no line of `stopSession` (`src/App.tsx` lines 35-53) stops the
`getUserMedia` tracks obtained at line 79; the stream is held only in a
local of `startSession`, so no teardown path can reach it. -/
theorem stopSession_mic_leak_cex :
    ¬ ((stopSession c9State).micAcquired = false) := by
  decide

/-- C9 amended: `stopSession`, from any state, returns the engine to
`IDLE`, resets `NextStartTime` to zero, releases the session handle and
the capture callback, issues a stop to every active unit and clears the
active-set, and is idempotent — re-running it on the already-released
state is a no-op, the formal counterpart of "stopping an already-stopped
unit / closing an already-closed handle never raises" (the `try`/`catch`
and null guards in the source make every teardown step total).  It does
NOT, however, release the microphone: the `getUserMedia` stream is never
track-stopped, so `micAcquired` passes through teardown unchanged. -/
theorem stopSession_amended_teardown (st : AppState) :
    (stopSession st).status = .IDLE ∧
    (stopSession st).sched.nextStartTime = 0 ∧
    (stopSession st).sched.active = ∅ ∧
    (stopSession st).sessionOpen = false ∧
    (stopSession st).scriptConnected = false ∧
    (stopSession st).liveUserText = "" ∧
    (stopSession st).liveModelText = "" ∧
    st.sched.active ⊆ (stopSession st).sched.stopped ∧
    stopSession (stopSession st) = stopSession st ∧
    (stopSession st).micAcquired = st.micAcquired := by
  refine ⟨rfl, rfl, rfl, rfl, rfl, rfl, rfl, ?_, ?_, rfl⟩
  · exact Finset.subset_union_right
  · cases st with
    | mk a b c d e f g h i j sch k =>
      cases sch
      simp [stopSession]

end Supra

namespace Supra

theorem takeLast_length (n : Nat) (l : List α) : (takeLast n l).length = min n l.length := by
  simp only [takeLast, List.length_drop]
  omega

theorem takeLast_suffix (n : Nat) (l : List α) : (takeLast n l).IsSuffix l :=
  List.drop_suffix _ _

theorem takeLast_of_length_le {n : Nat} {l : List α} (h : l.length ≤ n) : takeLast n l = l := by
  simp [takeLast, Nat.sub_eq_zero_of_le h]

theorem scheduleParts_fields (parts : List (ℚ × ℚ)) (st : AppState) :
    (scheduleParts parts st).transcriptions = st.transcriptions ∧
    (scheduleParts parts st).liveUserText = st.liveUserText ∧
    (scheduleParts parts st).liveModelText = st.liveModelText := by
  induction parts generalizing st with
  | nil => exact ⟨rfl, rfl, rfl⟩
  | cons p ps ih => exact ih _

theorem appendTranscripts_transcriptions (o i : Option String) (st : AppState) :
    (appendTranscripts o i st).transcriptions = st.transcriptions := by
  cases o with
  | some t => rfl
  | none =>
    cases i with
    | some t => rfl
    | none => rfl

theorem handleMessage_transcriptions_length (m : ServerMessage) (now : Nat) (t : ℚ)
    (st : AppState) (h : st.transcriptions.length ≤ 15) :
    (handleMessage m now t st).transcriptions.length ≤ 15 := by
  rcases m with ⟨parts, oT, iT, tc, ir⟩
  have hpres : (appendTranscripts oT iT (scheduleParts parts st)).transcriptions
      = st.transcriptions := by
    rw [appendTranscripts_transcriptions, (scheduleParts_fields parts st).1]
  cases ir <;> cases tc <;>
    simp_all [handleMessage, finalizeTurn, takeLast_length]

theorem stepOp_transcriptions_length (op : EngineOp) (st : AppState)
    (h : st.transcriptions.length ≤ 15) :
    (stepOp op st).transcriptions.length ≤ 15 := by
  cases op with
  | message m n c => exact handleMessage_transcriptions_length m n c st h
  | ended i => exact h
  | stop => exact h
  | transportError => exact h
  | remoteClose => exact h
  | startFailure => exact h

theorem runOps_transcriptions_length (ops : List EngineOp) (st : AppState)
    (h : st.transcriptions.length ≤ 15) :
    (runOps ops st).transcriptions.length ≤ 15 := by
  induction ops generalizing st with
  | nil => exact h
  | cons o t ih => exact ih _ (stepOp_transcriptions_length o st h)

/-- C5: over every sequence of engine events from the initial state, the
finalized log holds at most 15 entries; and at each finalization the new log
is a suffix of the old log extended with the new entries (oldest evicted
first, most recent retained in order), of length `min 15 (total)`. -/
theorem transcript_log_bounded :
    (∀ ops : List EngineOp, (runOps ops initState).transcriptions.length ≤ 15) ∧
    (∀ (now : Nat) (st : AppState),
      ((finalizeTurn now st).transcriptions).IsSuffix
        (st.transcriptions ++ userNew now st ++ modelNew now st) ∧
      (finalizeTurn now st).transcriptions.length
        = min 15 (st.transcriptions ++ userNew now st ++ modelNew now st).length) :=
  ⟨fun ops => runOps_transcriptions_length ops initState (by decide),
   fun now st => ⟨takeLast_suffix _ _, takeLast_length _ _⟩⟩

end Supra

namespace Supra

/-- C4: on a turn-completion event the handler appends, for each role whose
accumulated text is non-whitespace, exactly one entry carrying that text and
the wall-clock timestamp — user entry before model entry — clears both
accumulators, and leaves the log unchanged when both accumulators are
whitespace-only; the spec's "hel"/"lo" scenario produces exactly one user
entry with text "hello". -/
theorem finalize_turn_correct (st : AppState) (now : Nat) (t : ℚ) :
    (handleMessage turnMsg now t st).liveUserText = "" ∧
    (handleMessage turnMsg now t st).liveModelText = "" ∧
    (trimString st.liveUserText = "" → trimString st.liveModelText = "" →
      st.transcriptions.length ≤ 15 →
      (handleMessage turnMsg now t st).transcriptions = st.transcriptions) ∧
    (trimString st.liveUserText ≠ "" → trimString st.liveModelText ≠ "" →
      st.transcriptions.length ≤ 13 →
      (handleMessage turnMsg now t st).transcriptions
        = st.transcriptions ++
          [{ role := .user, text := st.liveUserText, timestamp := now },
           { role := .model, text := st.liveModelText, timestamp := now }]) ∧
    (trimString st.liveUserText ≠ "" → trimString st.liveModelText = "" →
      st.transcriptions.length ≤ 14 →
      (handleMessage turnMsg now t st).transcriptions
        = st.transcriptions ++ [{ role := .user, text := st.liveUserText, timestamp := now }]) ∧
    (trimString st.liveUserText = "" → trimString st.liveModelText ≠ "" →
      st.transcriptions.length ≤ 14 →
      (handleMessage turnMsg now t st).transcriptions
        = st.transcriptions ++ [{ role := .model, text := st.liveModelText, timestamp := now }]) ∧
    (runOps helloOps initState).transcriptions
      = [{ role := .user, text := "hello", timestamp := 5 }] ∧
    (runOps helloOps initState).liveUserText = "" ∧
    (runOps helloOps initState).liveModelText = "" := by
  have he : handleMessage turnMsg now t st = finalizeTurn now st := rfl
  refine ⟨rfl, rfl, ?_, ?_, ?_, ?_, by decide, by decide, by decide⟩
  · intro h1 h2 hlen
    have hu : userNew now st = [] := by simp [userNew, h1]
    have hm : modelNew now st = [] := by simp [modelNew, h2]
    rw [he]
    show takeLast 15 (st.transcriptions ++ userNew now st ++ modelNew now st) = st.transcriptions
    rw [hu, hm, List.append_nil, List.append_nil, takeLast_of_length_le hlen]
  · intro h1 h2 hlen
    have hu : userNew now st = [{ role := .user, text := st.liveUserText, timestamp := now }] := by
      simp [userNew, h1]
    have hm : modelNew now st
        = [{ role := .model, text := st.liveModelText, timestamp := now }] := by
      simp [modelNew, h2]
    rw [he]
    show takeLast 15 (st.transcriptions ++ userNew now st ++ modelNew now st)
      = st.transcriptions ++ _
    rw [hu, hm, takeLast_of_length_le (by simp; omega), List.append_assoc]
    rfl
  · intro h1 h2 hlen
    have hu : userNew now st = [{ role := .user, text := st.liveUserText, timestamp := now }] := by
      simp [userNew, h1]
    have hm : modelNew now st = [] := by simp [modelNew, h2]
    rw [he]
    show takeLast 15 (st.transcriptions ++ userNew now st ++ modelNew now st)
      = st.transcriptions ++ _
    rw [hu, hm, List.append_nil, takeLast_of_length_le (by simp; omega)]
  · intro h1 h2 hlen
    have hu : userNew now st = [] := by simp [userNew, h1]
    have hm : modelNew now st
        = [{ role := .model, text := st.liveModelText, timestamp := now }] := by
      simp [modelNew, h2]
    rw [he]
    show takeLast 15 (st.transcriptions ++ userNew now st ++ modelNew now st)
      = st.transcriptions ++ _
    rw [hu, hm, List.append_nil, takeLast_of_length_le (by simp; omega)]

theorem finalize_turn_correct_witness :
    (trimString c4State.liveUserText ≠ "" ∧ trimString c4State.liveModelText ≠ "" ∧
      c4State.transcriptions.length ≤ 13) ∧
    (handleMessage turnMsg 7 0 c4State).transcriptions
      = c4State.transcriptions ++
        [{ role := .user, text := "hi ", timestamp := 7 },
         { role := .model, text := "yo", timestamp := 7 }] := by
  refine ⟨by decide, ?_⟩
  exact (finalize_turn_correct c4State 7 0).2.2.2.1 (by decide) (by decide) (by decide)

end Supra

namespace Supra

/-- C6 counterexample: a transport error while `ACTIVE` does not leave the
session in the `ERROR` state — the `onerror` callback runs `stopSession`,
which sets the status to `IDLE`, refuting the claim that both error sources
transition to `Error`; the microphone-failure path in turn performs no
teardown (its active-set is left untouched). -/
theorem error_paths_cex :
    (handleTransportError c6State).status ≠ AppStatus.ERROR ∧
    (handleStartFailure c6State).sched.active ≠ (∅ : Finset Nat) := by
  decide

/-- C6 amended: on microphone-acquisition (or connect) failure the session
records a human-readable message and moves to `ERROR`, but performs no
resource teardown (session handle, capture callback and scheduler state are
left untouched); on transport error it records a message and runs the full
`close()`-style teardown via `stopSession`, which leaves the session in
`IDLE` rather than `ERROR`; neither path opens a new session (no automatic
reconnect). -/
theorem error_paths_amended (st : AppState) :
    (handleStartFailure st).status = .ERROR ∧
    (handleStartFailure st).errorMessage
      = some "SUPRA requires microphone access to initialize." ∧
    (handleStartFailure st).sched = st.sched ∧
    (handleStartFailure st).sessionOpen = st.sessionOpen ∧
    (handleStartFailure st).scriptConnected = st.scriptConnected ∧
    (handleTransportError st).errorMessage = some "SUPRA neural link disrupted." ∧
    (handleTransportError st).status = .IDLE ∧
    (handleTransportError st).sessionOpen = false ∧
    (handleTransportError st).scriptConnected = false ∧
    (handleTransportError st).sched.active = ∅ ∧
    (handleTransportError st).sched.nextStartTime = 0 ∧
    handleTransportError st
      = stopSession { st with errorMessage := some "SUPRA neural link disrupted." } :=
  ⟨rfl, rfl, rfl, rfl, rfl, rfl, rfl, rfl, rfl, rfl, rfl, rfl⟩

theorem sysInv_step (e : SysEvent) (s : Sys) (h : sysInv s) : sysInv (stepSys e s) := by
  obtain ⟨h1, h2, h3, h4⟩ := h
  cases e with
  | clickMain =>
    by_cases ha : s.status = .ACTIVE
    · simp [stepSys, ha, sysStop]
      decide
    · by_cases hc : s.status = .CONNECTING
      · simpa [stepSys, ha, hc] using ⟨h1, h2, h3, h4⟩
      · have hie : s.status = .IDLE ∨ s.status = .ERROR := by
          cases hs : s.status <;> simp_all
        have hl := (h3 hie).2
        simp [stepSys, ha, hc, sysStart, hl]
        decide
  | openOk =>
    by_cases hp : s.pending
    · have := h4 (h2 hp)
      simp [stepSys, hp, this]
      decide
    · simpa [stepSys, hp] using ⟨h1, h2, h3, h4⟩
  | openFail =>
    by_cases hp : s.pending
    · have := h4 (h2 hp)
      simp [stepSys, hp, this]
      decide
    · simpa [stepSys, hp] using ⟨h1, h2, h3, h4⟩
  | remoteClose =>
    simp only [stepSys, sysStop]
    decide
  | remoteError =>
    simp only [stepSys, sysStop]
    decide

theorem sysInv_run (evs : List SysEvent) (s : Sys) (h : sysInv s) : sysInv (runSys evs s) := by
  induction evs generalizing s with
  | nil => exact h
  | cons e t ih => exact ih _ (sysInv_step e s h)

/-- C8: under the component's controls, at most one remote session is ever
open — over every event sequence from the initial state the number of open
sessions stays at most 1; a click on the main control while `CONNECTING`
is a no-op (the start button is disabled), and while `ACTIVE` it runs
`stopSession` on the existing session rather than starting a new one. -/
theorem single_session_invariant :
    (∀ evs : List SysEvent, (runSys evs initSys).liveSessions ≤ 1) ∧
    (∀ s : Sys, stepSys .clickMain { s with status := .CONNECTING }
        = { s with status := .CONNECTING }) ∧
    (∀ s : Sys, stepSys .clickMain { s with status := .ACTIVE }
        = sysStop { s with status := .ACTIVE }) :=
  ⟨fun evs => (sysInv_run evs initSys (by decide)).1,
   fun s => by simp [stepSys],
   fun s => by simp [stepSys]⟩

end Supra

namespace Supra

namespace Codec

theorem encodeSample_bounds (s : ℚ) :
    -32768 ≤ encodeSample s ∧ encodeSample s ≤ 32767 :=
  ⟨le_max_left _ _, max_le (by norm_num) (min_le_left _ _)⟩

theorem bytesToInt_sampleToBytes (k : ℤ) (h1 : -32768 ≤ k) (h2 : k ≤ 32767) :
    bytesToInt ((k % 65536).toNat % 256) ((k % 65536).toNat / 256) = k := by
  unfold bytesToInt
  split <;> omega

theorem decodeBody_sampleToBytes (k : ℤ) (h1 : -32768 ≤ k) (h2 : k ≤ 32767)
    (rest : List Nat) :
    decodeBody (sampleToBytes k ++ rest) = decodeSample k :: decodeBody rest := by
  show decodeBody ((k % 65536).toNat % 256 :: (k % 65536).toNat / 256 :: rest)
    = decodeSample k :: decodeBody rest
  simp only [decodeBody]
  rw [bytesToInt_sampleToBytes k h1 h2]

theorem encodeSample_quant (s : ℚ) (h1 : -1 ≤ s) (h2 : s ≤ 1) :
    |decodeSample (encodeSample s) - s| ≤ 1 / 32768 := by
  have hr : round (s * 32768) = ⌊s * 32768 + 1 / 2⌋ := round_eq _
  have hle : ((round (s * 32768) : ℤ) : ℚ) ≤ s * 32768 + 1 / 2 := by
    rw [hr]; exact Int.floor_le _
  have hgt : s * 32768 + 1 / 2 < ((round (s * 32768) : ℤ) : ℚ) + 1 := by
    rw [hr]; exact Int.lt_floor_add_one _
  have hlow : (-32768 : ℤ) ≤ round (s * 32768) := by
    rw [hr]
    refine Int.le_floor.mpr ?_
    push_cast
    linarith
  have hmaxeq : encodeSample s = min 32767 (round (s * 32768)) :=
    max_eq_right (le_min (by norm_num) hlow)
  rcases le_or_lt (round (s * 32768)) 32767 with hsm | hlg
  · have hk : encodeSample s = round (s * 32768) := by
      rw [hmaxeq, min_eq_right hsm]
    rw [hk]
    unfold decodeSample
    rw [abs_le]
    constructor <;> linarith
  · have hk : encodeSample s = 32767 := by
      rw [hmaxeq, min_eq_left (le_of_lt hlg)]
    have hlgq : (32767 : ℚ) < ((round (s * 32768) : ℤ) : ℚ) := by exact_mod_cast hlg
    rw [hk]
    unfold decodeSample
    rw [abs_le]
    constructor <;> push_cast <;> linarith

theorem decodeBody_encode (samples : List ℚ) (hb : ∀ x ∈ samples, -1 ≤ x ∧ x ≤ 1) :
    List.Forall₂ (fun o s => |o - s| ≤ 1 / 32768) (decodeBody (encode samples)) samples := by
  induction samples with
  | nil => simp [encode, decodeBody]
  | cons x xs ih =>
    have hx := hb x (by simp)
    have hxs : ∀ y ∈ xs, -1 ≤ y ∧ y ≤ 1 := fun y hy => hb y (by simp [hy])
    have hbnd := encodeSample_bounds x
    have hstep : encode (x :: xs) = sampleToBytes (encodeSample x) ++ encode xs := by
      simp [encode]
    rw [hstep, decodeBody_sampleToBytes _ hbnd.1 hbnd.2]
    exact List.Forall₂.cons (encodeSample_quant x hx.1 hx.2) (ih hxs)

theorem encode_length (samples : List ℚ) : (encode samples).length = 2 * samples.length := by
  induction samples with
  | nil => rfl
  | cons x xs ih =>
    have hstep : encode (x :: xs) = sampleToBytes (encodeSample x) ++ encode xs := by
      simp [encode]
    rw [hstep, List.length_append, ih]
    simp [sampleToBytes]
    omega

/-- C7: the PCM codec round-trips — encoding any non-empty sequence of
samples in [-1, 1] and decoding the payload succeeds and reproduces every
sample within the 16-bit quantization error 1/32768 — and decoding fails
with `CodecError` exactly on an empty payload or a payload of odd byte
length (the codec's only failure cases). -/
theorem codec_round_trip (samples : List ℚ) (hne : samples ≠ [])
    (hb : ∀ x ∈ samples, -1 ≤ x ∧ x ≤ 1) :
    (∃ out, decode (encode samples) = .ok out ∧
       List.Forall₂ (fun o s => |o - s| ≤ 1 / 32768) out samples) ∧
    (∀ payload : List Nat,
       decode payload = .error .malformed ↔
         payload.length = 0 ∨ payload.length % 2 = 1) := by
  constructor
  · refine ⟨decodeBody (encode samples), ?_, decodeBody_encode samples hb⟩
    have hlen := encode_length samples
    have hpos : samples.length ≠ 0 := fun h => hne (List.length_eq_zero.mp h)
    have hcond : ¬((encode samples).length = 0 ∨ (encode samples).length % 2 = 1) := by
      rw [hlen]
      omega
    unfold decode
    rw [if_neg hcond]
  · intro payload
    unfold decode
    by_cases h : payload.length = 0 ∨ payload.length % 2 = 1
    · rw [if_pos h]
      simpa using h
    · rw [if_neg h]
      simpa using h

theorem codec_round_trip_witness :
    (([1/2, -1/2] : List ℚ) ≠ [] ∧ ∀ x ∈ ([1/2, -1/2] : List ℚ), -1 ≤ x ∧ x ≤ 1) ∧
    (∃ out, decode (encode [1/2, -1/2]) = .ok out ∧
       List.Forall₂ (fun o s => |o - s| ≤ 1 / 32768) out [1/2, -1/2]) := by
  have hb : ∀ x ∈ ([1/2, -1/2] : List ℚ), -1 ≤ x ∧ x ≤ 1 := by
    intro x hx
    fin_cases hx <;> constructor <;> norm_num
  exact ⟨⟨by simp, hb⟩, (codec_round_trip [1/2, -1/2] (by simp) hb).1⟩

end Codec

end Supra
